import Mathlib

/-!
Verification of the batched Cohere embeddings client
(`langchain/src/embeddings/cohere.ts`).

The TypeScript class `CohereEmbeddings` is shallowly embedded below:

* `EmbedRequest` is the request object `{ model, texts }` passed to
  `this.client.embed`.
* A provider (the remote endpoint, as seen through the retrying caller
  `this.caller.call`) is a function from the call index (first call made is
  index `0`, then `1`, ...) and the request to `Except ε (List E)`, where the
  `List E` is the `body.embeddings` field of a successful response and `ε` is
  a propagated error.  Indexing a response list out of range in JS yields
  `undefined`; this is modelled by `List.get?`, so the values collected by
  `embedDocuments` have type `Option E`.
* `embedDocuments` and `embedQuery` return both the result and the list of
  requests actually issued, in issue order, so that claims about the number,
  order and contents of remote calls can be stated.
* The constructor is `mkCohereEmbeddings`, with JavaScript truthiness of the
  `fields?.apiKey || process.env.COHERE_API_KEY` expression modelled
  explicitly (`jsTruthy`, `jsOr`).
* The lazily initialized `cohere-ai` client is an `Option Client` field;
  `maybeInitClient` embeds the guarded initialization.
-/

namespace CohereSpec

universe u v

variable {α : Type u} {ε : Type u} {E : Type u}

/-- Request sent to the remote embed endpoint: the object
`{ model: this.modelName, texts }` built in `embedDocuments` /
`embedQuery`. -/
structure EmbedRequest where
  model : String
  texts : List String
deriving Repr, DecidableEq

/-- A remote embedding provider as observed through the retrying caller:
given the index of the call (0-based, in issue order) and the request, it
either fails with an error (retries exhausted) or returns the
`body.embeddings` list of the response. -/
def Provider (ε : Type u) (E : Type u) : Type u :=
  Nat → EmbedRequest → Except ε (List E)

instance {ε2 α2 : Type v} [DecidableEq ε2] [DecidableEq α2] :
    DecidableEq (Except ε2 α2) := fun a b =>
  match a, b with
  | .error e, .error e2 => decidable_of_iff (e = e2) (by simp)
  | .error _, .ok _ => isFalse (by simp)
  | .ok _, .error _ => isFalse (by simp)
  | .ok x, .ok y => decidable_of_iff (x = y) (by simp)

/-- Modelled from the spec: the batch partitioning utility `chunkArray`
(imported in the source from `../util/index.js`, whose code is not part of
this repository snapshot).  Per the spec it is a pure, deterministic,
order-preserving `chunk(items, size)` that partitions the input into
consecutive batches of at most `size` items.  Implemented with a fuel
argument (`fuel = l.length` always suffices since every step consumes at
least one element) so that it is structurally recursive and computable by
the kernel.  The spec only constrains positive sizes; the `size.max 1`
guard makes the degenerate `size = 0` case total. -/
def chunkArrayFuel (size : Nat) : Nat → List α → List (List α)
  | _, [] => []
  | 0, l => [l]
  | fuel + 1, l => l.take (size.max 1) :: chunkArrayFuel size fuel (l.drop (size.max 1))

/-- Modelled from the spec: `chunkArray l size` partitions `l` into
consecutive batches of at most `size` elements, preserving order. -/
def chunkArray (l : List α) (size : Nat) : List (List α) :=
  chunkArrayFuel size l.length l

/-- The loop body of `embedDocuments`, fused over the list of batches
(`subPrompts`).  For each batch `input` it issues one request carrying the
ENTIRE original `texts` list (exactly as the source does: the request is
`{ model: this.modelName, texts }`, not `{ ..., texts: input }`), then pushes
`body.embeddings[j]` for `j < input.length` onto the accumulator.  `i` is the
index of the next remote call, `acc` the `embeddings` accumulator and `calls`
the requests issued so far. -/
def embedBatches (prov : Provider ε E) (m : String) (texts : List String) :
    List (List String) → Nat → List (Option E) → List EmbedRequest →
      Except ε (List (Option E)) × List EmbedRequest
  | [], _, acc, calls => (.ok acc, calls)
  | input :: rest, i, acc, calls =>
    match prov i { model := m, texts := texts } with
    | .error e => (.error e, calls ++ [{ model := m, texts := texts }])
    | .ok body =>
        embedBatches prov m texts rest (i + 1)
          (acc ++ (List.range input.length).map fun j => body.get? j)
          (calls ++ [{ model := m, texts := texts }])

/-- `CohereEmbeddings.embedDocuments(texts)`: chunks `texts` into
`subPrompts` of at most `batchSize` texts and runs the per-batch loop.
Returns the resulting embeddings list (on success) together with the list of
requests issued. -/
def embedDocuments (prov : Provider ε E) (m : String) (batchSize : Nat)
    (texts : List String) :
    Except ε (List (Option E)) × List EmbedRequest :=
  embedBatches prov m texts (chunkArray texts batchSize) 0 [] []

/-- `CohereEmbeddings.embedQuery(text)`: issues a single request with the
one-element list `[text]` and returns `body.embeddings[0]`. -/
def embedQuery (prov : Provider ε E) (m : String) (text : String) :
    Except ε (Option E) × List EmbedRequest :=
  match prov 0 { model := m, texts := [text] } with
  | .error e => (.error e, [{ model := m, texts := [text] }])
  | .ok body => (.ok (body.get? 0), [{ model := m, texts := [text] }])

/-- The `cohere-ai` client handle after `cohere.init(apiKey)`: recorded with
the key it was initialized with. -/
structure Client where
  apiKey : String
deriving Repr, DecidableEq

/-- Constructor options: `fields?.modelName`, `fields?.batchSize`,
`fields?.apiKey` (each possibly absent). -/
structure CohereFields where
  modelName : Option String := none
  batchSize : Option Nat := none
  apiKey : Option String := none
deriving Repr, DecidableEq

/-- The state of a constructed `CohereEmbeddings` instance. -/
structure CohereEmbeddings where
  modelName : String
  batchSize : Nat
  apiKey : String
  client : Option Client
deriving Repr, DecidableEq

/-- JavaScript truthiness of a possibly-absent string: `undefined` and the
empty string are falsy. -/
def jsTruthy : Option String → Bool
  | none => false
  | some s => !s.isEmpty

/-- The JavaScript `a || b` on possibly-absent strings: `a` if truthy,
otherwise `b`. -/
def jsOr (a b : Option String) : Option String :=
  if jsTruthy a then a else b

/-- The `CohereEmbeddings` constructor.  `env` is the value of
`process.env.COHERE_API_KEY` (or `none` when unset / `process` undefined).
The key is resolved as `fields?.apiKey || env`; `if (!apiKey) throw new
Error("Cohere API key not found")`.  `modelName` and `batchSize` use nullish
coalescing (`??`) against the class defaults `"small"` and `48`.  A thrown
constructor (so no instance created) is the `.error` case. -/
def mkCohereEmbeddings (fields : Option CohereFields) (env : Option String) :
    Except String CohereEmbeddings :=
  let apiKey := jsOr (fields.bind (·.apiKey)) env
  if jsTruthy apiKey then
    .ok
      { modelName := (fields.bind (·.modelName)).getD "small"
        batchSize := (fields.bind (·.batchSize)).getD 48
        apiKey := apiKey.getD ""
        client := none }
  else
    .error "Cohere API key not found"

/-- `maybeInitClient`: initializes the client iff it is not yet present
(`if (!this.client) { ... this.client.init(this.apiKey) }`). -/
def maybeInitClient (s : CohereEmbeddings) : CohereEmbeddings :=
  match s.client with
  | none => { s with client := some { apiKey := s.apiKey } }
  | some _ => s

/-- Stateful `embedDocuments` on an instance: first `maybeInitClient`, then
the batched loop using the (now initialized) client, the instance's model
name and batch size.  Returns the updated instance alongside the result and
issued requests.  The `getD` default is never reached: after
`maybeInitClient` the client is always present. -/
def embedDocumentsS (prov : Client → Provider ε E) (s : CohereEmbeddings)
    (texts : List String) :
    CohereEmbeddings × (Except ε (List (Option E)) × List EmbedRequest) :=
  let s1 := maybeInitClient s
  (s1, embedDocuments (prov (s1.client.getD { apiKey := s1.apiKey }))
        s1.modelName s1.batchSize texts)

/-- Stateful `embedQuery` on an instance: first `maybeInitClient`, then the
single call. -/
def embedQueryS (prov : Client → Provider ε E) (s : CohereEmbeddings)
    (text : String) :
    CohereEmbeddings × (Except ε (Option E) × List EmbedRequest) :=
  let s1 := maybeInitClient s
  (s1, embedQuery (prov (s1.client.getD { apiKey := s1.apiKey }))
        s1.modelName text)

/-- A provider that is perfectly aligned with each request: it embeds, via
`f`, exactly the texts carried by the request's `texts` field, one embedding
per text, on every call. -/
def alignedProv (f : String → E) : Provider ε E :=
  fun _ req => .ok (req.texts.map f)

/-- What the loop of `embedDocuments` collects from a sequence of successful
responses: for the `k`-th batch `input` (call index `i + k`), the first
`input.length` entries of the response body `body (i + k)`. -/
def consumedOutputs (body : Nat → List E) : Nat → List (List String) → List (Option E)
  | _, [] => []
  | i, input :: rest =>
      ((List.range input.length).map fun j => (body i).get? j) ++
        consumedOutputs body (i + 1) rest

/-- A concrete embedding function for tests and witnesses: the text `"a"`
embeds to `[0]`, every other text to `[1]`. -/
def embedAB : String → List Int :=
  fun s => if s = "a" then [0] else [1]

/-- A concrete aligned provider over `embedAB`, failing never. -/
def provAB : Provider String (List Int) :=
  alignedProv embedAB

/-- The response body `provAB` returns for the request carrying
`["a", "b"]`. -/
def bodyAB : Nat → List (List Int) :=
  fun _ => [[0], [1]]

/-- The response body `provAB` returns for the request carrying
`["a", "b", "c", "d", "e"]`. -/
def bodyABCDE : Nat → List (List Int) :=
  fun _ => [[0], [1], [1], [1], [1]]

/-- A concrete provider whose remote call always fails (retries exhausted on
every attempt). -/
def provFail : Provider String (List Int) :=
  fun _ _ => .error "boom"

/-! ### Helper lemmas about the batching utility -/

theorem chunkArrayFuel_congr (size : Nat) :
    ∀ fuel fuel2 (l : List α), l.length ≤ fuel → l.length ≤ fuel2 →
      chunkArrayFuel size fuel l = chunkArrayFuel size fuel2 l := by
  intro fuel
  induction fuel with
  | zero =>
      intro fuel2 l h1 _
      have hl : l = [] := List.eq_nil_of_length_eq_zero (Nat.le_zero.mp h1)
      subst hl
      cases fuel2 <;> rfl
  | succ fuel ih =>
      intro fuel2 l h1 h2
      cases l with
      | nil => cases fuel2 <;> rfl
      | cons a as =>
          cases fuel2 with
          | zero => exact absurd h2 (by simp)
          | succ fuel2 =>
              have hm : 1 ≤ size.max 1 := Nat.le_max_right size 1
              have hd : ((a :: as).drop (size.max 1)).length ≤ fuel := by
                simp only [List.length_drop, List.length_cons]
                simp only [List.length_cons] at h1
                omega
              have hd2 : ((a :: as).drop (size.max 1)).length ≤ fuel2 := by
                simp only [List.length_drop, List.length_cons]
                simp only [List.length_cons] at h2
                omega
              simp only [chunkArrayFuel]
              rw [ih fuel2 _ hd hd2]

theorem chunkArray_nil (size : Nat) : chunkArray ([] : List α) size = [] := rfl

theorem chunkArray_cons_eq (l : List α) (size : Nat) (h : l ≠ []) :
    chunkArray l size
      = l.take (size.max 1) :: chunkArray (l.drop (size.max 1)) size := by
  cases l with
  | nil => exact absurd rfl h
  | cons a as =>
      show chunkArrayFuel size (as.length + 1) (a :: as) = _
      simp only [chunkArrayFuel]
      rw [chunkArrayFuel_congr size as.length ((a :: as).drop (size.max 1)).length
            ((a :: as).drop (size.max 1))]
      · rfl
      · have hm : 1 ≤ size.max 1 := Nat.le_max_right size 1
        simp only [List.length_drop, List.length_cons]
        omega
      · exact Nat.le_refl _

/-- Concatenating the batches in order recovers the original list: the
partition is order-preserving and covers every element exactly once. -/
theorem chunkArray_flatten (size : Nat) (l : List α) :
    (chunkArray l size).flatten = l := by
  have H : ∀ (n : Nat) (l : List α), l.length ≤ n →
      (chunkArray l size).flatten = l := by
    intro n
    induction n with
    | zero =>
        intro l h
        have hl : l = [] := List.eq_nil_of_length_eq_zero (Nat.le_zero.mp h)
        subst hl
        simp [chunkArray_nil]
    | succ n ih =>
        intro l h
        cases l with
        | nil => simp [chunkArray_nil]
        | cons a as =>
            rw [chunkArray_cons_eq _ _ (by simp), List.flatten_cons,
              ih ((a :: as).drop (size.max 1)) ?_, List.take_append_drop]
            have hm : 1 ≤ size.max 1 := Nat.le_max_right size 1
            simp only [List.length_drop, List.length_cons]
            simp only [List.length_cons] at h
            omega
  exact H l.length l (Nat.le_refl _)

/-- The batch sizes sum to the input length. -/
theorem chunkArray_sum_lengths (size : Nat) (l : List α) :
    ((chunkArray l size).map List.length).sum = l.length := by
  rw [← List.length_flatten, chunkArray_flatten]

/-- Every batch produced by `chunkArray` has at most `max size 1` elements;
for positive `size` this is the spec's bound of at most `size` texts per
batch. -/
theorem chunkArray_batch_le (size : Nat) (l : List α) :
    ∀ c ∈ chunkArray l size, c.length ≤ size.max 1 := by
  have H : ∀ (n : Nat) (l : List α), l.length ≤ n →
      ∀ c ∈ chunkArray l size, c.length ≤ size.max 1 := by
    intro n
    induction n with
    | zero =>
        intro l h
        have hl : l = [] := List.eq_nil_of_length_eq_zero (Nat.le_zero.mp h)
        subst hl
        simp [chunkArray_nil]
    | succ n ih =>
        intro l h
        cases l with
        | nil => simp [chunkArray_nil]
        | cons a as =>
            rw [chunkArray_cons_eq _ _ (by simp)]
            intro c hc
            rcases List.mem_cons.mp hc with hc | hc
            · subst hc
              simpa using List.length_take_le (size.max 1) (a :: as)
            · refine ih ((a :: as).drop (size.max 1)) ?_ c hc
              have hm : 1 ≤ size.max 1 := Nat.le_max_right size 1
              simp only [List.length_drop, List.length_cons]
              simp only [List.length_cons] at h
              omega
  exact H l.length l (Nat.le_refl _)

/-! ### Helper lemmas about the batch loop -/

theorem consumedOutputs_length (body : Nat → List E) :
    ∀ (batches : List (List String)) (i : Nat),
      (consumedOutputs body i batches).length = (batches.map List.length).sum := by
  intro batches
  induction batches with
  | nil => intro i; rfl
  | cons input rest ih =>
      intro i
      simp [consumedOutputs, ih (i + 1)]

/-- When every remote call succeeds, the batch loop returns the accumulated
consumed outputs and one issued request per batch, each carrying the full
`texts` list. -/
theorem embedBatches_ok (prov : Provider ε E) (m : String) (texts : List String)
    (batches : List (List String)) (body : Nat → List E) :
    ∀ (i : Nat) (acc : List (Option E)) (calls : List EmbedRequest),
      (∀ k, k < batches.length → prov (i + k) ⟨m, texts⟩ = .ok (body (i + k))) →
      embedBatches prov m texts batches i acc calls
        = (.ok (acc ++ consumedOutputs body i batches),
           calls ++ List.replicate batches.length ⟨m, texts⟩) := by
  induction batches with
  | nil => intro i acc calls _; simp [embedBatches, consumedOutputs]
  | cons input rest ih =>
      intro i acc calls h
      have h0 : prov i ⟨m, texts⟩ = .ok (body i) := by
        simpa using h 0 (by simp)
      have hrest : ∀ k, k < rest.length →
          prov (i + 1 + k) ⟨m, texts⟩ = .ok (body (i + 1 + k)) := by
        intro k hk
        have := h (k + 1) (by simp only [List.length_cons]; omega)
        rwa [show i + (k + 1) = i + 1 + k by omega] at this
      simp only [embedBatches, h0]
      rw [ih (i + 1) _ _ hrest]
      simp [consumedOutputs, List.replicate_succ, List.append_assoc]

/-- If the calls before index `i + k` succeed and the `k`-th one fails with
`e`, the loop's result is the error `e`: nothing of the accumulator is
returned. -/
theorem embedBatches_err (prov : Provider ε E) (m : String) (texts : List String)
    (batches : List (List String)) (body : Nat → List E) (e : ε) :
    ∀ (k i : Nat) (acc : List (Option E)) (calls : List EmbedRequest),
      k < batches.length →
      (∀ j, j < k → prov (i + j) ⟨m, texts⟩ = .ok (body (i + j))) →
      prov (i + k) ⟨m, texts⟩ = .error e →
      (embedBatches prov m texts batches i acc calls).1 = .error e := by
  induction batches with
  | nil => intro k i acc calls hk _ _; simp at hk
  | cons input rest ih =>
      intro k i acc calls hk hpre hfail
      cases k with
      | zero =>
          simp only [Nat.add_zero] at hfail
          simp [embedBatches, hfail]
      | succ k =>
          have h0 : prov i ⟨m, texts⟩ = .ok (body i) := by
            simpa using hpre 0 (Nat.succ_pos k)
          have hpre1 : ∀ j, j < k → prov (i + 1 + j) ⟨m, texts⟩ = .ok (body (i + 1 + j)) := by
            intro j hj
            have := hpre (j + 1) (by omega)
            rwa [show i + (j + 1) = i + 1 + j by omega] at this
          have hfail1 : prov (i + 1 + k) ⟨m, texts⟩ = .error e := by
            rwa [show i + (k + 1) = i + 1 + k by omega] at hfail
          simp only [embedBatches, h0]
          exact ih k (i + 1) _ _ (by simpa using hk) hpre1 hfail1

/-- Whatever the provider does, every request the loop issues carries the
full original `texts` list. -/
theorem embedBatches_calls_mem (prov : Provider ε E) (m : String) (texts : List String)
    (batches : List (List String)) :
    ∀ (i : Nat) (acc : List (Option E)) (calls : List EmbedRequest),
      (∀ r ∈ calls, r = (⟨m, texts⟩ : EmbedRequest)) →
      ∀ r ∈ (embedBatches prov m texts batches i acc calls).2,
        r = (⟨m, texts⟩ : EmbedRequest) := by
  induction batches with
  | nil => intro i acc calls hc; simpa [embedBatches] using hc
  | cons input rest ih =>
      intro i acc calls hc
      have hc1 : ∀ r ∈ calls ++ [(⟨m, texts⟩ : EmbedRequest)],
          r = (⟨m, texts⟩ : EmbedRequest) := by
        intro r hr
        rcases List.mem_append.mp hr with hr | hr
        · exact hc r hr
        · simpa using hr
      cases hp : prov i ⟨m, texts⟩ with
      | error e =>
          simp only [embedBatches, hp]
          exact hc1
      | ok body =>
          simp only [embedBatches, hp]
          exact ih (i + 1) _ _ hc1

/-! ### Claim theorems -/

/-- Claim C1.  The claimed invariant — the embedding at result index `i` is
the embedding of `texts[i]`, assuming the provider returns embeddings
aligned to the `texts` field of each request — is FALSE on the code: because
every per-batch request carries the full original list while the loop
consumes only the first `batch.length` entries of each response, with
`batchSize = 1` and input `["a", "b"]` an aligned provider yields
`[embed "a", embed "a"]`, not `[embed "a", embed "b"]`.  This theorem
evaluates the code at that failing input. -/
theorem embedDocuments_misaligned_at_failing_input :
    (embedDocuments provAB "small" 1 ["a", "b"]).1
        = .ok [some [0], some [0]]
    ∧ (embedDocuments provAB "small" 1 ["a", "b"]).1
        ≠ .ok [some (embedAB "a"), some (embedAB "b")] := by
  decide

/-- Claim C2: every remote call issued by `embedDocuments` carries the
entire original text list in its request's `texts` field (the issued-call
list is a replication of the single request `{ model, texts }`), and, when
the calls succeed, the loop consumes exactly the first `batch.length`
entries of each call's response (`consumedOutputs`). -/
theorem embedDocuments_sends_full_list_each_call (prov : Provider ε E)
    (m : String) (batchSize : Nat) (texts : List String) (body : Nat → List E)
    (h : ∀ k, k < (chunkArray texts batchSize).length →
        prov k ⟨m, texts⟩ = .ok (body k)) :
    (embedDocuments prov m batchSize texts).2
        = List.replicate (embedDocuments prov m batchSize texts).2.length
            (⟨m, texts⟩ : EmbedRequest)
    ∧ (embedDocuments prov m batchSize texts).1
        = .ok (consumedOutputs body 0 (chunkArray texts batchSize)) := by
  constructor
  · exact List.eq_replicate_of_mem
      (embedBatches_calls_mem prov m texts (chunkArray texts batchSize) 0 [] []
        (by intro r hr; simp at hr))
  · have := embedBatches_ok prov m texts (chunkArray texts batchSize) body 0 [] []
      (by intro k hk; simpa using h k hk)
    simp [embedDocuments, this]

/-- Witness for claim C2 at `batchSize = 1`, `texts = ["a", "b"]`, the
aligned provider `provAB`. -/
theorem embedDocuments_sends_full_list_each_call_witness :
    (embedDocuments provAB "small" 1 ["a", "b"]).2
        = List.replicate (embedDocuments provAB "small" 1 ["a", "b"]).2.length
            (⟨"small", ["a", "b"]⟩ : EmbedRequest)
    ∧ (embedDocuments provAB "small" 1 ["a", "b"]).1
        = .ok (consumedOutputs bodyAB 0 (chunkArray ["a", "b"] 1)) :=
  embedDocuments_sends_full_list_each_call provAB "small" 1 ["a", "b"] bodyAB
    (by decide)

/-- Claim C3: for a non-empty input and positive batch size, when every
remote call succeeds and each response carries one embedding per text sent,
the embedding list returned by `embedDocuments` has exactly one entry per
input text. -/
theorem embedDocuments_length_eq (prov : Provider ε E) (m : String)
    (batchSize : Nat) (texts : List String) (body : Nat → List E)
    (_hne : texts ≠ []) (_hbs : 0 < batchSize)
    (_hbody : ∀ k, k < (chunkArray texts batchSize).length →
        (body k).length = texts.length)
    (h : ∀ k, k < (chunkArray texts batchSize).length →
        prov k ⟨m, texts⟩ = .ok (body k)) :
    Except.map List.length (embedDocuments prov m batchSize texts).1
        = .ok texts.length := by
  have hok := (embedDocuments_sends_full_list_each_call prov m batchSize texts body h).2
  rw [hok]
  simp [Except.map, consumedOutputs_length, chunkArray_sum_lengths]

/-- Witness for claim C3 at `batchSize = 1`, `texts = ["a", "b"]`. -/
theorem embedDocuments_length_eq_witness :
    Except.map List.length (embedDocuments provAB "small" 1 ["a", "b"]).1
        = .ok (["a", "b"] : List String).length :=
  embedDocuments_length_eq provAB "small" 1 ["a", "b"] bodyAB (by decide)
    (by decide) (by decide) (by decide)

/-- Claim C4: on the empty input, `embedDocuments` returns the empty list
and issues no remote call at all, for every provider, model name and batch
size. -/
theorem embedDocuments_empty (prov : Provider ε E) (m : String)
    (batchSize : Nat) :
    embedDocuments prov m batchSize [] = (.ok [], []) := rfl

/-- Claim C5: `embedQuery t` issues exactly one remote call carrying the
one-element list `[t]`, and returns exactly the sole embedding that
`embedDocuments [t]` returns: the result of `embedDocuments [t]` is the
one-element list holding `embedQuery t`'s result, and both issue the same
single request. -/
theorem embedQuery_eq_embedDocuments_single (prov : Provider ε E)
    (m : String) (batchSize : Nat) (t : String) (_hbs : 0 < batchSize) :
    (embedQuery prov m t).2 = [(⟨m, [t]⟩ : EmbedRequest)]
    ∧ (embedDocuments prov m batchSize [t]).1
        = Except.map (fun x => [x]) (embedQuery prov m t).1
    ∧ (embedDocuments prov m batchSize [t]).2 = (embedQuery prov m t).2 := by
  have hchunk : chunkArray [t] batchSize = [[t]] := by
    rw [chunkArray_cons_eq _ _ (by simp)]
    have hm : 1 ≤ batchSize.max 1 := Nat.le_max_right batchSize 1
    rw [List.take_of_length_le (by simpa), List.drop_eq_nil_of_le (by simpa),
      chunkArray_nil]
  have hdoc : embedDocuments prov m batchSize [t]
      = embedBatches prov m [t] [[t]] 0 [] [] := by
    unfold embedDocuments
    rw [hchunk]
  cases hp : prov 0 ⟨m, [t]⟩ with
  | error e =>
      refine ⟨by simp [embedQuery, hp], ?_, ?_⟩ <;>
        simp [hdoc, embedBatches, embedQuery, hp, Except.map]
  | ok body =>
      refine ⟨by simp [embedQuery, hp], ?_, ?_⟩ <;>
        simp [hdoc, embedBatches, embedQuery, hp, Except.map, List.range_succ]

/-- Witness for claim C5 at `batchSize = 1`, `t = "a"`. -/
theorem embedQuery_eq_embedDocuments_single_witness :
    (embedQuery provAB "small" "a").2 = [(⟨"small", ["a"]⟩ : EmbedRequest)]
    ∧ (embedDocuments provAB "small" 1 ["a"]).1
        = Except.map (fun x => [x]) (embedQuery provAB "small" "a").1
    ∧ (embedDocuments provAB "small" 1 ["a"]).2
        = (embedQuery provAB "small" "a").2 :=
  embedQuery_eq_embedDocuments_single provAB "small" 1 "a" (by decide)

/-- Claim C6: `embedDocuments` issues exactly one remote call per batch,
sequentially in batch order (the issued-call list replicates the request
once per batch, in order); in particular a five-text input at
`batchSize = 2` is split into exactly three batches of sizes 2, 2, 1, hence
three remote calls. -/
theorem embedDocuments_one_call_per_batch (prov : Provider ε E) (m : String)
    (batchSize : Nat) (texts : List String) (body : Nat → List E)
    (h : ∀ k, k < (chunkArray texts batchSize).length →
        prov k ⟨m, texts⟩ = .ok (body k)) :
    (embedDocuments prov m batchSize texts).2
        = List.replicate (chunkArray texts batchSize).length
            (⟨m, texts⟩ : EmbedRequest)
    ∧ ∀ t1 t2 t3 t4 t5 : String,
        (chunkArray [t1, t2, t3, t4, t5] 2).map List.length = [2, 2, 1] := by
  constructor
  · have := embedBatches_ok prov m texts (chunkArray texts batchSize) body 0 [] []
      (by intro k hk; simpa using h k hk)
    simp [embedDocuments, this]
  · intro t1 t2 t3 t4 t5
    rfl

/-- Witness for claim C6 at `batchSize = 2` and the five-text input
`["a", "b", "c", "d", "e"]`: three calls are issued. -/
theorem embedDocuments_one_call_per_batch_witness :
    (embedDocuments provAB "small" 2 ["a", "b", "c", "d", "e"]).2
        = List.replicate (chunkArray ["a", "b", "c", "d", "e"] 2).length
            (⟨"small", ["a", "b", "c", "d", "e"]⟩ : EmbedRequest)
    ∧ ∀ t1 t2 t3 t4 t5 : String,
        (chunkArray [t1, t2, t3, t4, t5] 2).map List.length = [2, 2, 1] :=
  embedDocuments_one_call_per_batch provAB "small" 2 ["a", "b", "c", "d", "e"]
    bodyABCDE (by decide)

/-- Claim C7: with no explicit credential in the constructor options and no
environment credential, construction fails synchronously with the
"Cohere API key not found" error and no instance is produced. -/
theorem mkCohereEmbeddings_missing_key (fields : Option CohereFields)
    (h : fields.bind (·.apiKey) = none) :
    mkCohereEmbeddings fields none = .error "Cohere API key not found" := by
  simp [mkCohereEmbeddings, jsOr, jsTruthy, h]

/-- Witness for claim C7 with no constructor options at all. -/
theorem mkCohereEmbeddings_missing_key_witness :
    mkCohereEmbeddings none none = .error "Cohere API key not found" :=
  mkCohereEmbeddings_missing_key none rfl

/-- Claim C8: if the calls before the `k`-th batch succeed and the `k`-th
batch's remote call fails (retries exhausted), `embedDocuments` propagates
that very error, and — the result being an `Except.error` — no partial
embedding list is returned. -/
theorem embedDocuments_error_propagates (prov : Provider ε E) (m : String)
    (batchSize : Nat) (texts : List String) (body : Nat → List E) (k : Nat)
    (e : ε)
    (hk : k < (chunkArray texts batchSize).length)
    (hpre : ∀ j, j < k → prov j ⟨m, texts⟩ = .ok (body j))
    (hfail : prov k ⟨m, texts⟩ = .error e) :
    (embedDocuments prov m batchSize texts).1 = .error e :=
  embedBatches_err prov m texts (chunkArray texts batchSize) body e k 0 [] []
    hk (fun j hj => by simpa using hpre j hj) (by simpa using hfail)

/-- Witness for claim C8: a provider whose calls always fail makes
`embedDocuments` fail with that error on a one-text input. -/
theorem embedDocuments_error_propagates_witness :
    (embedDocuments provFail "small" 1 ["a"]).1 = .error "boom" :=
  embedDocuments_error_propagates provFail "small" 1 ["a"] bodyAB 0 "boom"
    (by decide) (by decide) (by decide)

/-- Claim C9: both operations first run `maybeInitClient` and change the
instance state in no other way; an uninitialized client transitions to the
initialized client built from the instance's key; and on an
already-initialized instance `maybeInitClient` is the identity, so repeated
calls reuse the same client and never reinitialize it. -/
theorem client_init_one_way (prov : Client → Provider ε E)
    (s : CohereEmbeddings) (texts : List String) (t : String) (c : Client)
    (h : s.client = some c) :
    (embedDocumentsS prov s texts).1 = maybeInitClient s
    ∧ (embedQueryS prov s t).1 = maybeInitClient s
    ∧ (∀ s0 : CohereEmbeddings, s0.client = none →
        maybeInitClient s0 = { s0 with client := some { apiKey := s0.apiKey } })
    ∧ maybeInitClient s = s := by
  refine ⟨rfl, rfl, ?_, ?_⟩
  · intro s0 h0
    simp [maybeInitClient, h0]
  · simp [maybeInitClient, h]

/-- Witness for claim C9 on a concrete initialized instance. -/
theorem client_init_one_way_witness :
    (embedDocumentsS (fun _ => provAB)
        ⟨"small", 48, "key", some ⟨"key"⟩⟩ ["a"]).1
      = maybeInitClient ⟨"small", 48, "key", some ⟨"key"⟩⟩
    ∧ (embedQueryS (fun _ => provAB)
        ⟨"small", 48, "key", some ⟨"key"⟩⟩ "a").1
      = maybeInitClient ⟨"small", 48, "key", some ⟨"key"⟩⟩
    ∧ (∀ s0 : CohereEmbeddings, s0.client = none →
        maybeInitClient s0 = { s0 with client := some { apiKey := s0.apiKey } })
    ∧ maybeInitClient ⟨"small", 48, "key", some ⟨"key"⟩⟩
      = ⟨"small", 48, "key", some ⟨"key"⟩⟩ :=
  client_init_one_way (fun _ => provAB) ⟨"small", 48, "key", some ⟨"key"⟩⟩
    ["a"] "a" ⟨"key"⟩ rfl

/-- Claim C10: an explicit empty-string credential is falsy under the `||`
resolution, so construction behaves exactly as if no credential had been
passed: it falls back to the environment value for any environment, and
throws "Cohere API key not found" when the environment variable is also
unset. -/
theorem mkCohereEmbeddings_empty_key_falls_back (f : CohereFields)
    (env : Option String) (h : f.apiKey = some "") :
    mkCohereEmbeddings (some f) env
        = mkCohereEmbeddings (some { f with apiKey := none }) env
    ∧ mkCohereEmbeddings (some f) none = .error "Cohere API key not found" := by
  have hempty : "".isEmpty = true := by decide
  constructor <;> simp [mkCohereEmbeddings, jsOr, jsTruthy, h, hempty]

/-- Witness for claim C10 on concrete options carrying `apiKey = ""`. -/
theorem mkCohereEmbeddings_empty_key_falls_back_witness :
    mkCohereEmbeddings (some ⟨none, none, some ""⟩) (some "k")
        = mkCohereEmbeddings
            (some { (⟨none, none, some ""⟩ : CohereFields) with apiKey := none })
            (some "k")
    ∧ mkCohereEmbeddings (some ⟨none, none, some ""⟩) none
        = .error "Cohere API key not found" :=
  mkCohereEmbeddings_empty_key_falls_back ⟨none, none, some ""⟩ (some "k") rfl

end CohereSpec
